import Mathlib

/-!
Verification of the Atlas-Core decision model and message-dispatch layer.

The development shallowly embeds the Rust sources of the repository:
* `src/src/ordering_protocol/mod.rs` — the `Decision` / `DecisionInfo` data
  model and its operations;
* `src/src/serialize/mod.rs` — the `Service::verify_message_internal`
  dispatcher and the `NoProtocol` / `NoView` placeholders;
* `src/src/smr/exec/mod.rs` — the `ReplyNode` implementation for `NodeWrap`.

External collaborator types (atlas-common, atlas-communication, the crate's
`messages` module, which are not part of the sources) are modelled from the
specification, as documented on each definition.
-/

set_option linter.unusedVariables false

/-- Modelled from the spec: `SeqNo` (§3.1), a monotonic non-negative integer
wide enough not to wrap within a session; embedded as `Nat`. -/
abbrev SeqNo := Nat

/-- Modelled from the spec: `NodeId` (§3.2), an opaque equality-comparable
identifier; embedded as `Nat`. -/
abbrev NodeId := Nat

/-- Modelled from the spec: the error kinds of atlas-common's error type
(§7 of the spec). Only `OrderProtocolDecision` is produced by the embedded
code. -/
inductive ErrorKind where
  | OrderProtocolDecision
  | Verification
  | Persistence
  | Transport
  | ProtocolViolation
  | Fatal
deriving DecidableEq

/-- Modelled from the spec: atlas-common's structured error, a kind plus a
human-readable message (`Error::simple_with_msg`). -/
structure Error where
  kind : ErrorKind
  msg : String
deriving DecidableEq

/-- Modelled from the spec: atlas-common's `MaybeVec<T>`, either one element
(`One`) or a vector (`Mult`); used by the source as the payload of
`DecisionInfo::PartialDecisionInformation`. -/
inductive MaybeVec (α : Type) where
  | One (x : α)
  | Mult (xs : List α)
deriving DecidableEq

/-- Injection of `MaybeVec` into a lexicographic sum, mirroring the Rust
derived `Ord` (discriminant `One < Mult` first, payload second). -/
def MaybeVec.key [LinearOrder α] : MaybeVec α → α ⊕ₗ List α
  | .One x => toLex (Sum.inl x)
  | .Mult xs => toLex (Sum.inr xs)

theorem maybeVec_key_injective [LinearOrder α] :
    Function.Injective (MaybeVec.key (α := α)) := by
  intro a b h
  cases a <;> cases b <;> simp_all [MaybeVec.key]

instance [LinearOrder α] : LinearOrder (MaybeVec α) :=
  LinearOrder.lift' MaybeVec.key maybeVec_key_injective

/-- `DecisionInfo` from `src/src/ordering_protocol/mod.rs` (lines 108-117):
information about a given decision. `MD` is the metadata type, `PL` the
payload of `PartialDecisionInformation` (a `MaybeVec` of shareable messages
in the source), `O` the payload of `DecisionDone`
(`ProtocolConsensusDecision<O>` in the source, abstracted to a linearly
ordered type mirroring the derived `Ord`). -/
inductive DecisionInfo (MD PL O : Type) where
  | DecisionMetadata (md : MD)
  | PartialDecisionInformation (pl : PL)
  | DecisionDone (d : O)
deriving DecidableEq

/-- Injection of `DecisionInfo` into a lexicographic sum, mirroring the Rust
`#[derive(PartialOrd, Ord)]` on the enum: variants compare by discriminant
(`DecisionMetadata < PartialDecisionInformation < DecisionDone`) and then by
payload. -/
def DecisionInfo.key [LinearOrder MD] [LinearOrder PL] [LinearOrder O] :
    DecisionInfo MD PL O → MD ⊕ₗ (PL ⊕ₗ O)
  | .DecisionMetadata md => toLex (Sum.inl md)
  | .PartialDecisionInformation pl => toLex (Sum.inr (toLex (Sum.inl pl)))
  | .DecisionDone d => toLex (Sum.inr (toLex (Sum.inr d)))

theorem decisionInfo_key_injective [LinearOrder MD] [LinearOrder PL] [LinearOrder O] :
    Function.Injective (DecisionInfo.key : DecisionInfo MD PL O → MD ⊕ₗ (PL ⊕ₗ O)) := by
  intro a b h
  cases a <;> cases b <;> simp_all [DecisionInfo.key]

instance [LinearOrder MD] [LinearOrder PL] [LinearOrder O] :
    LinearOrder (DecisionInfo MD PL O) :=
  LinearOrder.lift' DecisionInfo.key decisionInfo_key_injective

theorem DecisionInfo.lt_iff_key [LinearOrder MD] [LinearOrder PL] [LinearOrder O]
    (a b : DecisionInfo MD PL O) : a < b ↔ a.key < b.key :=
  Iff.rfl

/-- The precedence rank of a `DecisionInfo` variant:
`DecisionMetadata = 0 < PartialDecisionInformation = 1 < DecisionDone = 2`. -/
def DecisionInfo.rank : DecisionInfo MD PL O → Nat
  | .DecisionMetadata _ => 0
  | .PartialDecisionInformation _ => 1
  | .DecisionDone _ => 2

/-- Whether a `DecisionInfo` is the `DecisionDone` variant. -/
def DecisionInfo.isDone : DecisionInfo MD PL O → Bool
  | .DecisionDone _ => true
  | _ => false

theorem DecisionInfo.isDone_iff_rank (a : DecisionInfo MD PL O) :
    a.isDone = true ↔ a.rank = 2 := by
  cases a <;> simp [DecisionInfo.isDone, DecisionInfo.rank]

theorem DecisionInfo.rank_le_two (a : DecisionInfo MD PL O) : a.rank ≤ 2 := by
  cases a <;> simp [DecisionInfo.rank]

/-- The derived order on `DecisionInfo` refines the variant precedence. -/
theorem DecisionInfo.rank_mono [LinearOrder MD] [LinearOrder PL] [LinearOrder O]
    {a b : DecisionInfo MD PL O} (h : a < b) : a.rank ≤ b.rank := by
  rw [DecisionInfo.lt_iff_key] at h
  cases a <;> cases b <;>
    simp_all [DecisionInfo.key, DecisionInfo.rank,
      Sum.Lex.inl_lt_inl_iff, Sum.Lex.inr_lt_inr_iff,
      Sum.Lex.not_inr_lt_inl]

/-- Modelled from the spec: ordered-set insertion on the element sequence of
atlas-common's `MaybeOrderedVec` (§3.6 "ordered set of DecisionInfo", §9
"small-vector kept sorted on insert"). Mirrors `BTreeSet::insert` /
`MaybeOrderedVecBuilder::push`: inserts in sorted position, keeping an
already-present equal element. -/
def ovInsert [LinearOrder α] (a : α) : List α → List α
  | [] => [a]
  | b :: t => if a < b then a :: b :: t else if a = b then b :: t else b :: ovInsert a t

theorem mem_ovInsert [LinearOrder α] (x a : α) (l : List α) :
    x ∈ ovInsert a l ↔ x = a ∨ x ∈ l := by
  induction l with
  | nil => simp [ovInsert]
  | cons b t ih =>
    simp only [ovInsert]
    split
    · simp [List.mem_cons]
    · split
      · next h2 =>
        subst h2
        simp only [List.mem_cons]
        tauto
      · simp only [List.mem_cons, ih]
        tauto

theorem sorted_ovInsert [LinearOrder α] (a : α) (l : List α)
    (h : l.Sorted (· < ·)) : (ovInsert a l).Sorted (· < ·) := by
  induction l with
  | nil => simp [ovInsert]
  | cons b t ih =>
    rw [List.sorted_cons] at h
    obtain ⟨hb, ht⟩ := h
    simp only [ovInsert]
    split
    · next hab =>
      rw [List.sorted_cons]
      refine ⟨?_, List.sorted_cons.mpr ⟨hb, ht⟩⟩
      intro y hy
      rcases List.mem_cons.mp hy with rfl | hy'
      · exact hab
      · exact lt_trans hab (hb y hy')
    · split
      · next h2 =>
        subst h2
        exact List.sorted_cons.mpr ⟨hb, ht⟩
      · next hab h2 =>
        have hba : b < a := lt_of_le_of_ne (le_of_not_lt hab) (fun e => h2 e.symm)
        rw [List.sorted_cons]
        refine ⟨?_, ih ht⟩
        intro y hy
        rcases (mem_ovInsert y a t).mp hy with rfl | hy'
        · exact hba
        · exact hb y hy'

theorem mem_foldl_ovInsert [LinearOrder α] (x : α) (l init : List α) :
    x ∈ l.foldl (fun s a => ovInsert a s) init ↔ x ∈ l ∨ x ∈ init := by
  induction l generalizing init with
  | nil => simp
  | cons b t ih =>
    rw [List.foldl_cons, ih, mem_ovInsert]
    simp only [List.mem_cons]
    tauto

theorem sorted_foldl_ovInsert [LinearOrder α] (l init : List α)
    (h : init.Sorted (· < ·)) :
    (l.foldl (fun s a => ovInsert a s) init).Sorted (· < ·) := by
  induction l generalizing init with
  | nil => exact h
  | cons b t ih => exact ih _ (sorted_ovInsert b init h)

/-- Two strictly sorted lists with the same members are equal. -/
theorem sorted_eq_of_mem_iff [LinearOrder α] {l₁ l₂ : List α}
    (h₁ : l₁.Sorted (· < ·)) (h₂ : l₂.Sorted (· < ·))
    (hm : ∀ x, x ∈ l₁ ↔ x ∈ l₂) : l₁ = l₂ := by
  haveI : IsAntisymm α (· < ·) := ⟨fun a b hab hba => absurd hba (asymm hab)⟩
  exact List.eq_of_perm_of_sorted
    ((List.perm_ext_iff_of_nodup h₁.nodup h₂.nodup).mpr hm) h₁ h₂

/-- In a strictly sorted list, every member is at most the last element. -/
theorem sorted_le_getLast [LinearOrder α] :
    ∀ (l : List α), l.Sorted (· < ·) → ∀ x ∈ l, ∀ (h : l ≠ []), x ≤ l.getLast h
  | [], _, x, hx, h => by simp at hx
  | [a], _, x, hx, h => by
    simp only [List.mem_singleton] at hx
    simp [hx, List.getLast]
  | a :: b :: t, hs, x, hx, h => by
    rw [List.sorted_cons] at hs
    have hne : (b :: t) ≠ [] := by simp
    rw [List.getLast_cons hne]
    rcases List.mem_cons.mp hx with rfl | hmem
    · exact le_of_lt (hs.1 _ (List.getLast_mem hne))
    · exact sorted_le_getLast (b :: t) hs.2 x hmem hne

/-- If a strictly sorted bundle contains a `DecisionDone` entry, its last
element is a `DecisionDone`. -/
theorem sorted_done_getLast [LinearOrder MD] [LinearOrder PL] [LinearOrder O]
    {l : List (DecisionInfo MD PL O)} (hs : l.Sorted (· < ·))
    {x : DecisionInfo MD PL O} (hx : x ∈ l) (hd : x.isDone = true)
    (h : l ≠ []) : (l.getLast h).isDone = true := by
  have hle := sorted_le_getLast l hs x hx h
  rw [DecisionInfo.isDone_iff_rank] at hd ⊢
  rcases lt_or_eq_of_le hle with hlt | heq
  · have h1 := DecisionInfo.rank_mono hlt
    have h2 := DecisionInfo.rank_le_two (l.getLast h)
    omega
  · rw [← heq, hd]

/-- The property claimed of every decision bundle: entries are sorted by the
variant precedence (`DecisionMetadata < PartialDecisionInformation <
DecisionDone`), and when a `DecisionDone` entry is present the last element
of the bundle is a `DecisionDone`. -/
def decisionBundleOK [LinearOrder MD] [LinearOrder PL] [LinearOrder O]
    (l : List (DecisionInfo MD PL O)) : Prop :=
  l.Pairwise (fun a b => a.rank ≤ b.rank) ∧
    ∀ (h : l ≠ []), (∃ x ∈ l, x.isDone = true) → (l.getLast h).isDone = true

theorem decisionBundleOK_of_sorted [LinearOrder MD] [LinearOrder PL] [LinearOrder O]
    {l : List (DecisionInfo MD PL O)} (hs : l.Sorted (· < ·)) :
    decisionBundleOK l := by
  constructor
  · exact List.Pairwise.imp (fun h => DecisionInfo.rank_mono h) hs
  · rintro h ⟨x, hx, hd⟩
    exact sorted_done_getLast hs hx hd h

/-- `Decision` from `src/src/ordering_protocol/mod.rs` (lines 94-106): a
given decision and information about it. `M` abstracts the shareable message
type `ShareableMessage<P>`; the `decision_info` field models atlas-common's
`MaybeOrderedVec` by its ordered element sequence (Modelled from the spec:
§3.6 "ordered set of DecisionInfo"). -/
structure Decision (MD M O : Type) where
  seq : SeqNo
  decision_info : List (DecisionInfo MD (MaybeVec M) O)
deriving DecidableEq

/-- `Decision::decision_info_from_message` (lines 203-209): create a decision
information object from a stored message. -/
def Decision.decision_info_from_message (seq : SeqNo) (decision : M) :
    Decision MD M O :=
  { seq := seq
    decision_info := [.PartialDecisionInformation (.One decision)] }

/-- `Decision::decision_info_from_metadata` (lines 211-217): create a
decision information object from a metadata object. -/
def Decision.decision_info_from_metadata (seq : SeqNo) (metadata : MD) :
    Decision MD M O :=
  { seq := seq
    decision_info := [.DecisionMetadata metadata] }

/-- `Decision::decision_info_from_messages` (lines 219-225): create a
decision information object from a group of messages. -/
def Decision.decision_info_from_messages (seq : SeqNo) (messages : List M) :
    Decision MD M O :=
  { seq := seq
    decision_info := [.PartialDecisionInformation (.Mult messages)] }

/-- `Decision::completed_decision` (lines 227-233): create a decision done
object. -/
def Decision.completed_decision (seq : SeqNo) (update : O) :
    Decision MD M O :=
  { seq := seq
    decision_info := [.DecisionDone update] }

/-- `Decision::full_decision_info` (lines 235-249): create a full decision
info from all of the components, collected through a `BTreeSet`. -/
def Decision.full_decision_info [LinearOrder MD] [LinearOrder M] [LinearOrder O]
    (seq : SeqNo) (metadata : MD) (messages : List M) (requests : O) :
    Decision MD M O :=
  { seq := seq
    decision_info :=
      ovInsert (.DecisionDone requests)
        (ovInsert (.PartialDecisionInformation (.Mult messages))
          (ovInsert (.DecisionMetadata metadata) [])) }

/-- The message of the error returned by `Decision::merge_decisions`. -/
def mergeSeqErrorMsg : String :=
  "The decisions have different sequence numbers, cannot merge"

/-- `Decision::merge_decisions` (lines 251-272): merge two decisions by
appending one to the other; errors when the sequence numbers differ.
The `&mut self` is embedded as explicit state passing: the first component
of the result is the post-state of `self`. The body mirrors the source:
on mismatched `seq` it returns the error before any mutation; otherwise a
builder seeded with `other`'s bundle receives every entry of `self`'s bundle
in order and is rebuilt. -/
def Decision.merge_decisions [LinearOrder MD] [LinearOrder M] [LinearOrder O]
    (self other : Decision MD M O) :
    Decision MD M O × Except Error Unit :=
  if self.seq ≠ other.seq then
    (self, .error ⟨ErrorKind.OrderProtocolDecision, mergeSeqErrorMsg⟩)
  else
    ({ self with
         decision_info :=
           self.decision_info.foldl (fun s a => ovInsert a s) other.decision_info },
     .ok ())

/-- `Decision::append_decision_info` (lines 274-284): push one entry into the
ordered bundle through the builder. -/
def Decision.append_decision_info [LinearOrder MD] [LinearOrder M] [LinearOrder O]
    (self : Decision MD M O) (decision_info : DecisionInfo MD (MaybeVec M) O) :
    Decision MD M O :=
  { self with decision_info := ovInsert decision_info self.decision_info }

/-- `impl Orderable for Decision` (lines 295-299): `sequence_number` returns
the `seq` field. -/
def Decision.sequence_number (d : Decision MD M O) : SeqNo :=
  d.seq

/-- C1 (amended): every `Decision` produced or transformed by
`decision_info_from_message`, `decision_info_from_messages`,
`decision_info_from_metadata`, `completed_decision`, `full_decision_info`,
`append_decision_info` or `merge_decisions` (the latter two starting from a
decision whose bundle satisfies the ordering invariant) has its
`DecisionInfo` entries sorted by the precedence
`DecisionMetadata < PartialDecisionInformation < DecisionDone`, and whenever
a `DecisionDone` entry is present the last element of the bundle is a
`DecisionDone`. -/
theorem c1_decision_bundle_ordering [LinearOrder MD] [LinearOrder M] [LinearOrder O] :
    (∀ (seq : SeqNo) (m : M),
        decisionBundleOK
          ((Decision.decision_info_from_message seq m : Decision MD M O)).decision_info) ∧
    (∀ (seq : SeqNo) (ms : List M),
        decisionBundleOK
          ((Decision.decision_info_from_messages seq ms : Decision MD M O)).decision_info) ∧
    (∀ (seq : SeqNo) (md : MD),
        decisionBundleOK
          (Decision.decision_info_from_metadata (M := M) (O := O) seq md).decision_info) ∧
    (∀ (seq : SeqNo) (u : O),
        decisionBundleOK
          ((Decision.completed_decision seq u : Decision MD M O)).decision_info) ∧
    (∀ (seq : SeqNo) (md : MD) (ms : List M) (u : O),
        decisionBundleOK (Decision.full_decision_info seq md ms u).decision_info) ∧
    (∀ (d : Decision MD M O) (i : DecisionInfo MD (MaybeVec M) O),
        d.decision_info.Sorted (· < ·) →
        decisionBundleOK (d.append_decision_info i).decision_info) ∧
    (∀ (d1 d2 : Decision MD M O),
        d1.decision_info.Sorted (· < ·) → d2.decision_info.Sorted (· < ·) →
        decisionBundleOK (d1.merge_decisions d2).1.decision_info) := by
  refine ⟨fun seq m => ?_, fun seq ms => ?_, fun seq md => ?_, fun seq u => ?_,
    fun seq md ms u => ?_, fun d i hd => ?_, fun d1 d2 h1 h2 => ?_⟩
  · exact decisionBundleOK_of_sorted (by simp [Decision.decision_info_from_message])
  · exact decisionBundleOK_of_sorted (by simp [Decision.decision_info_from_messages])
  · exact decisionBundleOK_of_sorted (by simp [Decision.decision_info_from_metadata])
  · exact decisionBundleOK_of_sorted (by simp [Decision.completed_decision])
  · refine decisionBundleOK_of_sorted ?_
    simp only [Decision.full_decision_info]
    exact sorted_ovInsert _ _ (sorted_ovInsert _ _ (sorted_ovInsert _ _ (by simp)))
  · exact decisionBundleOK_of_sorted (sorted_ovInsert _ _ hd)
  · by_cases hseq : d1.seq ≠ d2.seq
    · simpa [Decision.merge_decisions, hseq] using decisionBundleOK_of_sorted h1
    · refine decisionBundleOK_of_sorted ?_
      simp only [Decision.merge_decisions, hseq, if_false]
      exact sorted_foldl_ovInsert _ _ h2

/-- A decision reachable through the source operations whose bundle holds two
distinct `DecisionDone` entries. -/
def c1CexDecision : Decision Nat Nat Nat :=
  Decision.append_decision_info (Decision.completed_decision 0 0)
    (DecisionInfo.DecisionDone 1)

/-- C1 counterexample: the claim as stated is false — appending a second,
distinct `DecisionDone` to a completed decision yields the bundle
`[DecisionDone 0, DecisionDone 1]`, in which the first entry is a
`DecisionDone` that is not the last element of the bundle. -/
theorem c1_counterexample :
    ¬ (∀ (i : Nat) (h : i < c1CexDecision.decision_info.length),
        (c1CexDecision.decision_info.get ⟨i, h⟩).isDone = true →
          i = c1CexDecision.decision_info.length - 1) := by
  decide

/-- C1 witness: the append conjunct of the amended theorem applied to a
concrete decision. -/
theorem c1_witness :
    decisionBundleOK ((Decision.append_decision_info
        (Decision.decision_info_from_metadata (M := Nat) (O := Nat) 5 0)
        (DecisionInfo.DecisionDone 7)).decision_info) :=
  (c1_decision_bundle_ordering).2.2.2.2.2.1 _ _
    (by simp [Decision.decision_info_from_metadata])

/-- C2: `merge_decisions` fails with an error of kind
`OrderProtocolDecision` when the sequence numbers differ; with equal
sequence numbers it succeeds and the resulting bundle is the union of the
two ordered bundles with the precedence ordering re-established. -/
theorem c2_merge_decisions_spec [LinearOrder MD] [LinearOrder M] [LinearOrder O]
    (d1 d2 : Decision MD M O)
    (h1 : d1.decision_info.Sorted (· < ·)) (h2 : d2.decision_info.Sorted (· < ·)) :
    (d1.seq ≠ d2.seq →
      d1.merge_decisions d2 =
        (d1, Except.error ⟨ErrorKind.OrderProtocolDecision, mergeSeqErrorMsg⟩)) ∧
    (d1.seq = d2.seq →
      (d1.merge_decisions d2).2 = Except.ok () ∧
      (d1.merge_decisions d2).1.decision_info.Sorted (· < ·) ∧
      decisionBundleOK (d1.merge_decisions d2).1.decision_info ∧
      (∀ x, x ∈ (d1.merge_decisions d2).1.decision_info ↔
        x ∈ d1.decision_info ∨ x ∈ d2.decision_info)) := by
  constructor
  · intro h
    simp [Decision.merge_decisions, h]
  · intro h
    have hne : ¬ d1.seq ≠ d2.seq := by simp [h]
    simp only [Decision.merge_decisions, hne, if_false]
    refine ⟨by trivial, sorted_foldl_ovInsert _ _ h2,
      decisionBundleOK_of_sorted (sorted_foldl_ovInsert _ _ h2), fun x => ?_⟩
    exact mem_foldl_ovInsert x d1.decision_info d2.decision_info

/-- C2 witness: the merge-failure scenario S2 of the spec, with sequence
numbers 7 and 8. -/
theorem c2_witness :
    (Decision.decision_info_from_metadata (M := Nat) (O := Nat) 7 0).merge_decisions
        (Decision.completed_decision 8 1)
      = (Decision.decision_info_from_metadata 7 0,
         Except.error ⟨ErrorKind.OrderProtocolDecision, mergeSeqErrorMsg⟩) :=
  (c2_merge_decisions_spec _ _ (by simp [Decision.decision_info_from_metadata])
      (by simp [Decision.completed_decision])).1 (by decide)

/-- C3: for decisions with equal sequence numbers (whose bundles satisfy the
ordering invariant), `merge_decisions` is commutative, and merging a
decision with a copy of itself yields an equal decision. -/
theorem c3_merge_commutative_idempotent [LinearOrder MD] [LinearOrder M] [LinearOrder O] :
    (∀ (d1 d2 : Decision MD M O), d1.seq = d2.seq →
      d1.decision_info.Sorted (· < ·) → d2.decision_info.Sorted (· < ·) →
      d1.merge_decisions d2 = d2.merge_decisions d1) ∧
    (∀ (d : Decision MD M O), d.decision_info.Sorted (· < ·) →
      d.merge_decisions d = (d, Except.ok ())) := by
  constructor
  · intro d1 d2 hseq h1 h2
    have hne : ¬ d1.seq ≠ d2.seq := by simp [hseq]
    have hne' : ¬ d2.seq ≠ d1.seq := by simp [hseq]
    simp only [Decision.merge_decisions, hne, hne', if_false]
    have hb : d1.decision_info.foldl (fun s a => ovInsert a s) d2.decision_info
        = d2.decision_info.foldl (fun s a => ovInsert a s) d1.decision_info := by
      refine sorted_eq_of_mem_iff (sorted_foldl_ovInsert _ _ h2)
        (sorted_foldl_ovInsert _ _ h1) (fun x => ?_)
      rw [mem_foldl_ovInsert, mem_foldl_ovInsert]
      tauto
    simp only [Prod.mk.injEq, Decision.mk.injEq]
    exact ⟨⟨hseq, hb⟩, trivial⟩
  · intro d hd
    have hne : ¬ d.seq ≠ d.seq := by simp
    simp only [Decision.merge_decisions, hne, if_false]
    have hb : d.decision_info.foldl (fun s a => ovInsert a s) d.decision_info
        = d.decision_info := by
      refine sorted_eq_of_mem_iff (sorted_foldl_ovInsert _ _ hd) hd (fun x => ?_)
      rw [mem_foldl_ovInsert]
      tauto
    cases d with
    | mk s l =>
      simp only [Prod.mk.injEq, Decision.mk.injEq]
      exact ⟨⟨trivial, hb⟩, trivial⟩

/-- C3 witness: commutativity applied to two concrete decisions with
sequence number 3. -/
theorem c3_witness :
    (Decision.decision_info_from_metadata (M := Nat) (O := Nat) 3 0).merge_decisions
        (Decision.completed_decision 3 1)
      = (Decision.completed_decision 3 1).merge_decisions
          (Decision.decision_info_from_metadata 3 0) :=
  (c3_merge_commutative_idempotent).1 _ _ rfl
    (by simp [Decision.decision_info_from_metadata])
    (by simp [Decision.completed_decision])

/-- C9: `merge_decisions` is atomic on failure — when the sequence numbers
differ, the error of kind `OrderProtocolDecision` is returned before any
mutation, so the post-state of the first decision keeps its `seq` and
`decision_info` bundle exactly as they were. -/
theorem c9_merge_atomic_on_failure [LinearOrder MD] [LinearOrder M] [LinearOrder O]
    (d1 d2 : Decision MD M O) (h : d1.seq ≠ d2.seq) :
    (d1.merge_decisions d2).1 = d1 ∧
    (d1.merge_decisions d2).1.seq = d1.seq ∧
    (d1.merge_decisions d2).1.decision_info = d1.decision_info ∧
    (d1.merge_decisions d2).2 =
      Except.error ⟨ErrorKind.OrderProtocolDecision, mergeSeqErrorMsg⟩ := by
  simp [Decision.merge_decisions, h]

/-- C9 witness: the atomicity theorem applied to concrete decisions with
sequence numbers 7 and 8. -/
theorem c9_witness :
    ((Decision.decision_info_from_metadata (M := Nat) (O := Nat) 7 0).merge_decisions
        (Decision.completed_decision 8 1)).1
      = Decision.decision_info_from_metadata 7 0 :=
  (c9_merge_atomic_on_failure _ _ (by decide)).1

/-- C10: `sequence_number` returns exactly the `seq` supplied at
construction by each constructor, and neither `append_decision_info` nor a
successful `merge_decisions` changes the `seq` field. -/
theorem c10_seq_frame [LinearOrder MD] [LinearOrder M] [LinearOrder O] :
    (∀ (seq : SeqNo) (m : M),
      ((Decision.decision_info_from_message seq m : Decision MD M O)).sequence_number = seq) ∧
    (∀ (seq : SeqNo) (ms : List M),
      ((Decision.decision_info_from_messages seq ms : Decision MD M O)).sequence_number = seq) ∧
    (∀ (seq : SeqNo) (md : MD),
      (Decision.decision_info_from_metadata (M := M) (O := O) seq md).sequence_number = seq) ∧
    (∀ (seq : SeqNo) (u : O),
      ((Decision.completed_decision seq u : Decision MD M O)).sequence_number = seq) ∧
    (∀ (seq : SeqNo) (md : MD) (ms : List M) (u : O),
      (Decision.full_decision_info seq md ms u).sequence_number = seq) ∧
    (∀ (d : Decision MD M O) (i : DecisionInfo MD (MaybeVec M) O),
      (d.append_decision_info i).seq = d.seq ∧
      (d.append_decision_info i).sequence_number = d.sequence_number) ∧
    (∀ (d1 d2 : Decision MD M O), d1.seq = d2.seq →
      (d1.merge_decisions d2).1.seq = d1.seq ∧
      (d1.merge_decisions d2).1.sequence_number = d1.sequence_number) := by
  refine ⟨fun seq m => rfl, fun seq ms => rfl, fun seq md => rfl, fun seq u => rfl,
    fun seq md ms u => rfl, fun d i => ⟨rfl, rfl⟩, fun d1 d2 hseq => ?_⟩
  have hne : ¬ d1.seq ≠ d2.seq := by simp [hseq]
  simp [Decision.merge_decisions, hne, Decision.sequence_number]

/-- C10 witness: the merge conjunct applied to concrete decisions with equal
sequence number 5. -/
theorem c10_witness :
    ((Decision.decision_info_from_metadata (M := Nat) (O := Nat) 5 0).merge_decisions
        (Decision.completed_decision 5 1)).1.seq = 5 :=
  ((c10_seq_frame).2.2.2.2.2.2
    (Decision.decision_info_from_metadata (M := Nat) (O := Nat) 5 0)
    (Decision.completed_decision 5 1) rfl).1

/-- Modelled from the spec: atlas-communication's `StoredMessage` (§3.5), an
envelope bundling a header and a body under shared read-only ownership. -/
structure StoredMessage (H A : Type) where
  header : H
  message : A
deriving DecidableEq

/-- Modelled from the spec: the `ForwardedProtocolMessage` payload of the
crate's `messages` module (§3.4) — a stored, header-preserving forward of a
protocol message seen by another replica. `header` is the outer carrier
header; `message` is the inner stored protocol message (the source's
`Protocol` wrapper around the payload is flattened to the payload itself). -/
structure FwdProtocolMessage (H P : Type) where
  header : H
  message : StoredMessage H P
deriving DecidableEq

/-- Modelled from the spec: the `ForwardedRequestsMessage` payload of the
crate's `messages` module (§3.4) — a batch of forwarded client requests,
each stored with its own header. -/
structure FwdRequestsMessage (H R : Type) where
  requests : List (StoredMessage H R)
deriving DecidableEq

/-- Modelled from the spec: `SystemMessage` (§3.4), the tagged union of
system messages. `H` is the header type, `R` the request payload, `Q` the
reply payload, `P`/`S`/`L` the ordering-, state- and log-transfer protocol
payloads (the source's `RequestMessage`/`Protocol` wrappers are flattened to
their payloads). -/
inductive SystemMessage (H R Q P S L : Type) where
  | ProtocolMessage (p : P)
  | LogTransferMessage (l : L)
  | StateTransferMessage (s : S)
  | OrderedRequest (r : R)
  | UnorderedRequest (r : R)
  | OrderedReply (rp : Q)
  | UnorderedReply (rp : Q)
  | ForwardedProtocolMessage (fwd : FwdProtocolMessage H P)
  | ForwardedRequestMessage (fwd : FwdRequestsMessage H R)
deriving DecidableEq

/-- Termination measure for the dispatcher: only the forwarded-request arm
re-enters the dispatcher, on `OrderedRequest` leaves. -/
def SystemMessage.vsize : SystemMessage H R Q P S L → Nat
  | .ForwardedRequestMessage fwd => 2 * fwd.requests.length + 2
  | _ => 0

mutual

/-- `Service::verify_message_internal` from `src/src/serialize/mod.rs`
(lines 59-113): per-variant verification dispatch. The pluggable
`P::verify_order_protocol_message`, `S::verify_state_message` and
`L::verify_log_message` capabilities are taken as function arguments; the
request/reply arms are trusted at this layer (`Ok(true)`); the
forwarded-protocol arm verifies the inner payload against the inner header;
the forwarded-request arm folds re-entrant dispatcher calls with `&=`. -/
def verify_message_internal {N H R Q P S L : Type}
    (verifyOP : N → H → P → Except Error (Bool × P))
    (verifyST : N → H → S → Except Error (Bool × S))
    (verifyLT : N → H → L → Except Error (Bool × L))
    (info_provider : N) (header : H) :
    SystemMessage H R Q P S L → Except Error Bool
  | .ProtocolMessage protocol => do
    let (result, _message) ← verifyOP info_provider header protocol
    pure result
  | .LogTransferMessage log_transfer => do
    let (result, _message) ← verifyLT info_provider header log_transfer
    pure result
  | .StateTransferMessage state_transfer => do
    let (result, _message) ← verifyST info_provider header state_transfer
    pure result
  | .OrderedRequest _request => .ok true
  | .OrderedReply _reply => .ok true
  | .UnorderedReply _reply => .ok true
  | .UnorderedRequest _request => .ok true
  | .ForwardedProtocolMessage fwd_protocol => do
    let (result, _message) ← verifyOP info_provider fwd_protocol.message.header
      fwd_protocol.message.message
    pure result
  | .ForwardedRequestMessage fwd_requests =>
    verify_forwarded_requests (Q := Q) verifyOP verifyST verifyLT info_provider
      fwd_requests.requests true
termination_by msg => msg.vsize
decreasing_by all_goals simp [SystemMessage.vsize]

/-- The `for stored_rq in fwd_requests.requests()` loop of the
forwarded-request arm (lines 98-111): re-enters the dispatcher on each
element as an `OrderedRequest` under that element's own header, accumulating
with `result &= …`. -/
def verify_forwarded_requests {N H R Q P S L : Type}
    (verifyOP : N → H → P → Except Error (Bool × P))
    (verifyST : N → H → S → Except Error (Bool × S))
    (verifyLT : N → H → L → Except Error (Bool × L))
    (info_provider : N) :
    List (StoredMessage H R) → Bool → Except Error Bool
  | [], result => .ok result
  | stored_rq :: rest, result => do
    let b ← verify_message_internal (Q := Q) (S := S) (L := L)
      verifyOP verifyST verifyLT info_provider stored_rq.header
      (.OrderedRequest stored_rq.message)
    verify_forwarded_requests (Q := Q) verifyOP verifyST verifyLT info_provider rest
      (result && b)
termination_by rqs _ => 2 * rqs.length + 1
decreasing_by all_goals (simp [SystemMessage.vsize]; try omega)

end

theorem verify_message_internal_ordered_request {N H R Q P S L : Type}
    (verifyOP : N → H → P → Except Error (Bool × P))
    (verifyST : N → H → S → Except Error (Bool × S))
    (verifyLT : N → H → L → Except Error (Bool × L))
    (info_provider : N) (header : H) (r : R) :
    verify_message_internal (Q := Q) (S := S) (L := L) verifyOP verifyST verifyLT
      info_provider header (.OrderedRequest r) = .ok true := by
  simp [verify_message_internal]

theorem verify_forwarded_requests_ok {N H R Q P S L : Type}
    (verifyOP : N → H → P → Except Error (Bool × P))
    (verifyST : N → H → S → Except Error (Bool × S))
    (verifyLT : N → H → L → Except Error (Bool × L))
    (info_provider : N) (rqs : List (StoredMessage H R)) (acc : Bool) :
    verify_forwarded_requests (Q := Q) (S := S) (L := L) verifyOP verifyST verifyLT
      info_provider rqs acc = .ok acc := by
  induction rqs generalizing acc with
  | nil => simp [verify_forwarded_requests]
  | cons rq rest ih =>
    simp only [verify_forwarded_requests, verify_message_internal]
    show verify_forwarded_requests (Q := Q) (S := S) (L := L) verifyOP verifyST verifyLT
      info_provider rest (acc && true) = .ok acc
    rw [Bool.and_true]
    exact ih acc

theorem exceptOkBind {E A B : Type} (a : A) (f : A → Except E B) :
    (Except.ok a : Except E A) >>= f = f a := rfl

theorem exceptPureBind {E A B : Type} (a : A) (f : A → Except E B) :
    (pure a : Except E A) >>= f = f a := rfl

theorem foldlM_ordered_request_ok {N H R Q P S L : Type}
    (verifyOP : N → H → P → Except Error (Bool × P))
    (verifyST : N → H → S → Except Error (Bool × S))
    (verifyLT : N → H → L → Except Error (Bool × L))
    (info_provider : N) (rqs : List (StoredMessage H R)) (acc : Bool) :
    rqs.foldlM (fun result stored_rq => do
        let b ← verify_message_internal (Q := Q) (S := S) (L := L) verifyOP verifyST
          verifyLT info_provider stored_rq.header (.OrderedRequest stored_rq.message)
        pure (result && b)) acc = .ok acc := by
  induction rqs generalizing acc with
  | nil => rfl
  | cons rq rest ih =>
    rw [List.foldlM_cons, verify_message_internal_ordered_request, exceptOkBind,
      exceptPureBind, Bool.and_true]
    exact ih acc

/-- C4: verification of a `ForwardedProtocolMessage` checks the inner
payload against the inner header only — two envelopes with identical inner
stored messages but different outer headers (both the top-level header and
the carrier's own header) verify identically. -/
theorem c4_forward_trust_isolation {N H R Q P S L : Type}
    (verifyOP : N → H → P → Except Error (Bool × P))
    (verifyST : N → H → S → Except Error (Bool × S))
    (verifyLT : N → H → L → Except Error (Bool × L))
    (info_provider : N) (h1 h2 oh1 oh2 : H) (inner : StoredMessage H P) :
    verify_message_internal (R := R) (Q := Q) verifyOP verifyST verifyLT info_provider h1
        (.ForwardedProtocolMessage ⟨oh1, inner⟩)
      = verify_message_internal (R := R) (Q := Q) verifyOP verifyST verifyLT info_provider h2
        (.ForwardedProtocolMessage ⟨oh2, inner⟩) := by
  simp [verify_message_internal]

/-- C5 (amended): a `ForwardedRequestMessage` verifies as the logical AND of
re-entering each stored request into the dispatcher as an `OrderedRequest`
under that element's own header; since the `OrderedRequest` arm is trusted
at this layer (`Ok(true)`), the dispatcher returns `Ok(true)` for every
batch — inner signature validity is not checked here. -/
theorem c5_forwarded_request_batch {N H R Q P S L : Type}
    (verifyOP : N → H → P → Except Error (Bool × P))
    (verifyST : N → H → S → Except Error (Bool × S))
    (verifyLT : N → H → L → Except Error (Bool × L))
    (info_provider : N) (header : H) (fwd : FwdRequestsMessage H R) :
    verify_message_internal (Q := Q) verifyOP verifyST verifyLT info_provider header
        (.ForwardedRequestMessage fwd)
      = fwd.requests.foldlM (fun result stored_rq => do
          let b ← verify_message_internal (Q := Q) (S := S) (L := L) verifyOP verifyST
            verifyLT info_provider stored_rq.header (.OrderedRequest stored_rq.message)
          pure (result && b)) true ∧
    verify_message_internal (Q := Q) verifyOP verifyST verifyLT info_provider header
        (.ForwardedRequestMessage fwd)
      = .ok true := by
  have hok := verify_forwarded_requests_ok (Q := Q) verifyOP verifyST verifyLT
    info_provider fwd.requests true
  have hfold := foldlM_ordered_request_ok (Q := Q) verifyOP verifyST verifyLT
    info_provider fwd.requests true
  constructor
  · rw [hfold]
    simp only [verify_message_internal]
    exact hok
  · simp only [verify_message_internal]
    exact hok

/-- C5 counterexample: a concrete three-element forwarded-request batch,
dispatched with verifiers that report every protocol signature invalid,
still verifies `Ok(true)` — refuting "a batch in which one inner signature
is invalid verifies false". -/
theorem c5_counterexample :
    verify_message_internal (N := Nat) (H := Nat) (R := Nat) (Q := Nat)
        (P := Nat) (S := Nat) (L := Nat)
        (fun _ _ p => .ok (false, p)) (fun _ _ s => .ok (false, s))
        (fun _ _ l => .ok (false, l)) 0 0
        (.ForwardedRequestMessage ⟨[⟨1, 10⟩, ⟨2, 20⟩, ⟨3, 30⟩]⟩)
      = .ok true := by
  simp only [verify_message_internal]
  exact verify_forwarded_requests_ok _ _ _ _ _ _

/-- `NoProtocol` from `src/src/serialize/mod.rs` (lines 126-128): the
degenerate placeholder protocol used for client-only facets. All its
associated payload types are the unit type in the source. -/
structure NoProtocol where

/-- `impl OrderingProtocolMessage for NoProtocol`,
`verify_order_protocol_message` (lines 172-174): `Ok((false, message))`. -/
def NoProtocol.verify_order_protocol_message {N H : Type}
    (network_info : N) (header : H) (message : Unit) :
    Except Error (Bool × Unit) :=
  .ok (false, message)

/-- `impl OrderingProtocolMessage for NoProtocol`, `verify_proof`
(lines 176-178): `Ok((false, proof))`. -/
def NoProtocol.verify_proof {N : Type} (network_info : N) (proof : Unit) :
    Except Error (Bool × Unit) :=
  .ok (false, proof)

/-- `impl StateTransferMessage for NoProtocol`, `verify_state_message`
(lines 204-206): `Ok((false, message))`. -/
def NoProtocol.verify_state_message {N H : Type}
    (network_info : N) (header : H) (message : Unit) :
    Except Error (Bool × Unit) :=
  .ok (false, message)

/-- `impl LogTransferMessage for NoProtocol`, `verify_log_message`
(lines 222-227): `Ok((false, message))`. -/
def NoProtocol.verify_log_message {N H : Type}
    (network_info : N) (header : H) (message : Unit) :
    Except Error (Bool × Unit) :=
  .ok (false, message)

/-- C6: for every input, the `NoProtocol` implementations of
`verify_order_protocol_message`, `verify_state_message`,
`verify_log_message` and `verify_proof` return `Ok` with verification
result `false` and the payload unchanged. -/
theorem c6_no_protocol_verifiers (N H : Type) :
    (∀ (ni : N) (h : H) (m : Unit),
      NoProtocol.verify_order_protocol_message ni h m = .ok (false, m)) ∧
    (∀ (ni : N) (h : H) (m : Unit),
      NoProtocol.verify_state_message ni h m = .ok (false, m)) ∧
    (∀ (ni : N) (h : H) (m : Unit),
      NoProtocol.verify_log_message ni h m = .ok (false, m)) ∧
    (∀ (ni : N) (p : Unit), NoProtocol.verify_proof ni p = .ok (false, p)) :=
  ⟨fun _ _ _ => rfl, fun _ _ _ => rfl, fun _ _ _ => rfl, fun _ _ => rfl⟩

/-- `NoView` from `src/src/serialize/mod.rs` (lines 130-132): the view
placeholder paired with `NoProtocol`. -/
structure NoView where
deriving DecidableEq

/-- `impl Orderable for NoView` (lines 134-138): the body is
`unimplemented!()`; the panic is embedded as `none` (a normal return would
be `some`). -/
def NoView.sequence_number (_self : NoView) : Option SeqNo := none

/-- `impl NetworkView for NoView`, `primary` (lines 141-143):
`unimplemented!()`, embedded as `none`. -/
def NoView.primary (_self : NoView) : Option NodeId := none

/-- `impl NetworkView for NoView`, `quorum` (lines 145-147):
`unimplemented!()`, embedded as `none`. -/
def NoView.quorum (_self : NoView) : Option Nat := none

/-- `impl NetworkView for NoView`, `quorum_members` (lines 149-151):
`unimplemented!()`, embedded as `none`. -/
def NoView.quorum_members (_self : NoView) : Option (List NodeId) := none

/-- `impl NetworkView for NoView`, `f` (lines 153-155): `unimplemented!()`,
embedded as `none`. -/
def NoView.f (_self : NoView) : Option Nat := none

/-- `impl NetworkView for NoView`, `n` (lines 157-159): `unimplemented!()`,
embedded as `none`. -/
def NoView.n (_self : NoView) : Option Nat := none

/-- C8: every method of the `NoView` placeholder (`sequence_number`,
`primary`, `quorum`, `quorum_members`, `f`, `n`) takes the panic branch for
every input — in the embedding, every call returns `none`, never `some`. -/
theorem c8_no_view_panics :
    ∀ (v : NoView),
      v.sequence_number = none ∧ v.primary = none ∧ v.quorum = none ∧
      v.quorum_members = none ∧ NoView.f v = none ∧ NoView.n v = none :=
  fun _ => ⟨rfl, rfl, rfl, rfl, rfl, rfl⟩

/-- `ReplyType` from `src/src/smr/exec/mod.rs` (lines 15-18). -/
inductive ReplyType where
  | Ordered
  | Unordered

/-- `impl ReplyNode for NodeWrap`, `send` (lines 40-51): wraps the reply
into the envelope variant selected by `reply_type` and delegates to the
underlying transport node (`self.0.send`), taken here as the function
argument `nt_send`. -/
def NodeWrap.send {H R Q P S L : Type}
    (nt_send : SystemMessage H R Q P S L → NodeId → Bool → Except Error Unit)
    (reply_type : ReplyType) (reply : Q) (target : NodeId) (flush : Bool) :
    Except Error Unit :=
  let message := match reply_type with
    | .Ordered => SystemMessage.OrderedReply (H := H) (R := R) (P := P) (S := S) (L := L) reply
    | .Unordered => SystemMessage.UnorderedReply reply
  nt_send message target flush

/-- `impl ReplyNode for NodeWrap`, `send_signed` (lines 53-64): as `send`,
delegating to `self.0.send_signed`. -/
def NodeWrap.send_signed {H R Q P S L : Type}
    (nt_send_signed : SystemMessage H R Q P S L → NodeId → Bool → Except Error Unit)
    (reply_type : ReplyType) (reply : Q) (target : NodeId) (flush : Bool) :
    Except Error Unit :=
  let message := match reply_type with
    | .Ordered => SystemMessage.OrderedReply (H := H) (R := R) (P := P) (S := S) (L := L) reply
    | .Unordered => SystemMessage.UnorderedReply reply
  nt_send_signed message target flush

/-- `impl ReplyNode for NodeWrap`, `broadcast` (lines 66-76): wraps and
delegates to `self.0.broadcast`; failure is the list of nodes that did not
receive the message. -/
def NodeWrap.broadcast {H R Q P S L : Type}
    (nt_broadcast : SystemMessage H R Q P S L → List NodeId → Except (List NodeId) Unit)
    (reply_type : ReplyType) (reply : Q) (targets : List NodeId) :
    Except (List NodeId) Unit :=
  let message := match reply_type with
    | .Ordered => SystemMessage.OrderedReply (H := H) (R := R) (P := P) (S := S) (L := L) reply
    | .Unordered => SystemMessage.UnorderedReply reply
  nt_broadcast message targets

/-- `impl ReplyNode for NodeWrap`, `broadcast_signed` (lines 78-88): as
`broadcast`, delegating to `self.0.broadcast_signed`. -/
def NodeWrap.broadcast_signed {H R Q P S L : Type}
    (nt_broadcast_signed : SystemMessage H R Q P S L → List NodeId → Except (List NodeId) Unit)
    (reply_type : ReplyType) (reply : Q) (targets : List NodeId) :
    Except (List NodeId) Unit :=
  let message := match reply_type with
    | .Ordered => SystemMessage.OrderedReply (H := H) (R := R) (P := P) (S := S) (L := L) reply
    | .Unordered => SystemMessage.UnorderedReply reply
  nt_broadcast_signed message targets

/-- C7: each of `ReplyNode::send`, `send_signed`, `broadcast` and
`broadcast_signed` wraps the reply into `OrderedReply` under
`ReplyType::Ordered` and into `UnorderedReply` under `ReplyType::Unordered`,
then delegates the wrapped message unchanged (same target/flush/targets) to
the underlying transport node. -/
theorem c7_reply_routing {H R Q P S L : Type} :
    (∀ (nt : SystemMessage H R Q P S L → NodeId → Bool → Except Error Unit)
       (rep : Q) (target : NodeId) (flush : Bool),
      NodeWrap.send nt .Ordered rep target flush
        = nt (.OrderedReply rep) target flush ∧
      NodeWrap.send nt .Unordered rep target flush
        = nt (.UnorderedReply rep) target flush) ∧
    (∀ (nt : SystemMessage H R Q P S L → NodeId → Bool → Except Error Unit)
       (rep : Q) (target : NodeId) (flush : Bool),
      NodeWrap.send_signed nt .Ordered rep target flush
        = nt (.OrderedReply rep) target flush ∧
      NodeWrap.send_signed nt .Unordered rep target flush
        = nt (.UnorderedReply rep) target flush) ∧
    (∀ (nt : SystemMessage H R Q P S L → List NodeId → Except (List NodeId) Unit)
       (rep : Q) (targets : List NodeId),
      NodeWrap.broadcast nt .Ordered rep targets = nt (.OrderedReply rep) targets ∧
      NodeWrap.broadcast nt .Unordered rep targets = nt (.UnorderedReply rep) targets) ∧
    (∀ (nt : SystemMessage H R Q P S L → List NodeId → Except (List NodeId) Unit)
       (rep : Q) (targets : List NodeId),
      NodeWrap.broadcast_signed nt .Ordered rep targets
        = nt (.OrderedReply rep) targets ∧
      NodeWrap.broadcast_signed nt .Unordered rep targets
        = nt (.UnorderedReply rep) targets) :=
  ⟨fun _ _ _ _ => ⟨rfl, rfl⟩, fun _ _ _ _ => ⟨rfl, rfl⟩,
   fun _ _ _ => ⟨rfl, rfl⟩, fun _ _ _ => ⟨rfl, rfl⟩⟩
